import Mathlib

/-!
Shallow embedding of the deterministic PDF parsing core
(`app/agents/parsers/deterministic_parser.py`) in Lean 4, together with
theorems settling the specification claims about it.

Geometry coordinates are modelled as rationals (the source works with
Python floats used only through comparisons, additions and divisions on
page-coordinate magnitudes; no rounding behaviour is relied upon).
Byte strings are modelled as `List Nat`, identifiers as `String`.
-/

namespace DetParse

/-- Axis-aligned rectangle, mirroring `fitz.Rect` (x0, y0, x1, y1). -/
structure Rect where
  x0 : ℚ
  y0 : ℚ
  x1 : ℚ
  y1 : ℚ
deriving DecidableEq, Repr

/-- `fitz.Rect.width`. -/
def Rect.width (r : Rect) : ℚ := r.x1 - r.x0

/-- `fitz.Rect.height`. -/
def Rect.height (r : Rect) : ℚ := r.y1 - r.y0

/-- `fitz.Rect.intersects`: the two rectangles share a non-empty
rectangular region (touching edges do not count). -/
def Rect.intersects (a b : Rect) : Bool :=
  (max a.x0 b.x0 < min a.x1 b.x1) && (max a.y0 b.y0 < min a.y1 b.y1)

/-- `DeterministicPDFParser._is_significant_visual`, translated clause by
clause from the source.  Argument order matches the Python signature
`(rect, page_height, page_width)`. -/
def is_significant_visual (rect : Rect) (page_height page_width : ℚ) : Bool :=
  if rect.y1 < page_height * (15 / 100) then false
  else if rect.y0 > page_height * (85 / 100) then false
  else if rect.width < 30 ∨ rect.height < 30 then false
  else if rect.height > 0 ∧ rect.width / rect.height > 10 then false
  else if rect.width > 0 ∧ rect.height / rect.width > 10 then false
  else if rect.width > page_width * (8 / 10) ∧ rect.height > page_height * (5 / 10) then false
  else true

/-- A `pdfplumber` table candidate: bounding box plus the extracted grid of
cell strings (a cell may be `none`, as `extract()` can yield null cells). -/
structure TableObj where
  bbox : Rect
  extract : List (List (Option String))
deriving Repr

/-- `DeterministicPDFParser._is_valid_table`, translated clause by clause. -/
def is_valid_table (t : TableObj) : Bool :=
  let width := t.bbox.x1 - t.bbox.x0
  let height := t.bbox.y1 - t.bbox.y0
  if width < 50 ∨ height < 20 then false
  else if t.extract.isEmpty then false
  else
    let num_rows := t.extract.length
    let num_cols := if num_rows > 0 then (t.extract.headI).length else 0
    if num_rows < 2 ∧ num_cols < 2 then false
    else true

/-- `DeterministicPDFParser._has_complex_visuals`, translated from the
source.  A drawing whose rectangle cannot be normalised (the broad
`try/except` around `fitz.Rect(d["rect"])`) is modelled as `none` and
skipped; `get_image_rects` failure is modelled as an empty rect list. -/
def has_complex_visuals (page_width page_height : ℚ) (drawings : List (Option Rect))
    (images : List (List Rect)) (table_bboxes : List Rect) : Bool :=
  let significant_drawings :=
    drawings.countP (fun d =>
      match d with
      | none => false
      | some r =>
        if table_bboxes.any (fun table => table.intersects r) then false
        else is_significant_visual r page_height page_width)
  let significant_images :=
    images.flatten.countP (fun r =>
      if table_bboxes.any (fun table => table.intersects r) then false
      else if r.width > 50 ∧ r.height > 50 then is_significant_visual r page_height page_width
      else false)
  if significant_images > 0 then true
  else if significant_drawings > 10 then true
  else false

/-- Modelled from the spec sentence behind C2 (for comparison with the code):
a page has complex visuals iff at least one embedded raster image passes the
Significance Filter and does not intersect any accepted table region, or more
than 10 vector drawing primitives pass the Significance Filter after excluding
those that intersect an accepted table region. -/
def has_complex_visuals_claim (page_width page_height : ℚ) (drawings : List (Option Rect))
    (images : List (List Rect)) (table_bboxes : List Rect) : Bool :=
  (images.flatten.any (fun r =>
    !(table_bboxes.any (fun table => table.intersects r)) &&
      is_significant_visual r page_height page_width)) ||
  (drawings.countP (fun d =>
      match d with
      | none => false
      | some r =>
        !(table_bboxes.any (fun table => table.intersects r)) &&
          is_significant_visual r page_height page_width) > 10)

/-- The claim of C2 amended by the raster-image size gate the source applies
(`r.width > 50 and r.height > 50`) before the Significance Filter. -/
def has_complex_visuals_amended (page_width page_height : ℚ) (drawings : List (Option Rect))
    (images : List (List Rect)) (table_bboxes : List Rect) : Bool :=
  (images.flatten.any (fun r =>
    !(table_bboxes.any (fun table => table.intersects r)) &&
      (decide (r.width > 50 ∧ r.height > 50)) &&
      is_significant_visual r page_height page_width)) ||
  (drawings.countP (fun d =>
      match d with
      | none => false
      | some r =>
        !(table_bboxes.any (fun table => table.intersects r)) &&
          is_significant_visual r page_height page_width) > 10)

/-! ## Image store (`_save_image` and its two dicts) -/

/-- Value stored in `self.images[image_id]`. -/
structure ImageMeta where
  path : String
  first_seen_page : Nat
deriving DecidableEq, Repr

/-- The mutable image-store state owned by one run:
`image_counter`, `images`, `unique_image_hashes`, plus the contents of the
`images/` directory (path and byte content of each file written). -/
structure ImgState where
  image_counter : Nat
  images : List (String × ImageMeta)
  unique_image_hashes : List (Nat × String)
  files : List (String × List Nat)
deriving DecidableEq, Repr

/-- State at construction time (`__init__`): counter 0, empty maps, empty
`images/` directory. -/
def initState : ImgState := ⟨0, [], [], []⟩

/-- Python `f"{n:03d}"`: decimal, zero-padded to at least width 3. -/
def pad3 (n : Nat) : String :=
  let s := toString n
  if s.length < 3 then String.mk (List.replicate (3 - s.length) '0') ++ s else s

/-- Identifier format `f"img_{counter:03d}"`. -/
def mkImageId (n : Nat) : String := "img_" ++ pad3 n

/-- `DeterministicPDFParser._save_image`.  `hash` abstracts `hashlib.md5`
(a pure function of the bytes; bytes are `List Nat`); `save_ok` is the
outcome of the `Image.open`/`img.save` attempt — on failure nothing is
written, neither dict is updated, and `None` is returned, but the counter
increment before the `try` block is kept. -/
def saveImage (hash : List Nat → Nat) (s : ImgState) (image_bytes : List Nat)
    (page_num : Nat) (save_ok : Bool) : ImgState × Option String :=
  let image_hash := hash image_bytes
  match s.unique_image_hashes.lookup image_hash with
  | some id => (s, some id)
  | none =>
    let counter := s.image_counter + 1
    let image_id := mkImageId counter
    let image_path := "images/" ++ image_id ++ ".png"
    if save_ok then
      ({ image_counter := counter,
         images := s.images ++ [(image_id, ⟨image_path, page_num⟩)],
         unique_image_hashes := s.unique_image_hashes ++ [(image_hash, image_id)],
         files := s.files ++ [(image_path, image_bytes)] }, some image_id)
    else
      ({ s with image_counter := counter }, none)

/-- Call-site tag for a `_save_image` invocation: the table path of
`_process_tables_as_images` versus the whole-page visual path of `parse`.
`_save_image` itself receives no kind argument. -/
inductive ImgKind where
  | table
  | image
deriving DecidableEq, Repr, Inhabited

/-- One `_save_image` invocation within a parse. -/
structure SaveCall where
  bytes : List Nat
  page : Nat
  kind : ImgKind
  ok : Bool
deriving DecidableEq, Repr, Inhabited

/-- A sequence of `_save_image` calls threaded through the store state,
returning the final state and each call's returned identifier. -/
def runSave (hash : List Nat → Nat) (s : ImgState) : List SaveCall → ImgState × List (Option String)
  | [] => (s, [])
  | c :: cs =>
    let r := saveImage hash s c.bytes c.page c.ok
    let rest := runSave hash r.1 cs
    (rest.1, r.2 :: rest.2)

/-! ## Text cleaning (`_clean_text`) -/

/-- Character class of the regex `[\._-]`. -/
def isLeader (c : Char) : Bool := c == '.' || c == '_' || c == '-'

/-- Python regex `\s` restricted to its ASCII members (the parser's inputs
of interest); also the class stripped by `str.strip()`. -/
def isPySpace (c : Char) : Bool :=
  c == ' ' || c == '\t' || c == '\n' || c == '\x0d' || c == '\x0b' || c == '\x0c'

/-- Emit a completed run of leader characters: a greedy match of
`[\._-]{3,}` is replaced by a single space, shorter runs are left alone. -/
def flushRun (run : List Char) : List Char :=
  if 3 ≤ run.length then [' '] else run

/-- Scanner for `re.sub(r"[\._-]{3,}", " ", ·)`: `pending` is the current
(not yet emitted) run of leader characters, in order. -/
def subLeadersGo (pending : List Char) : List Char → List Char
  | [] => flushRun pending
  | c :: cs =>
    if isLeader c then subLeadersGo (pending ++ [c]) cs
    else flushRun pending ++ c :: subLeadersGo [] cs

/-- `re.sub(r"[\._-]{3,}", " ", text)`. -/
def subLeaders (l : List Char) : List Char := subLeadersGo [] l

/-- Scanner for `re.sub(r"\s+", " ", ·)`: `pending` records whether we are
inside a whitespace run that has not yet been emitted as a single space. -/
def subSpacesGo (pending : Bool) : List Char → List Char
  | [] => if pending then [' '] else []
  | c :: cs =>
    if isPySpace c then subSpacesGo true cs
    else (if pending then [' '] else []) ++ c :: subSpacesGo false cs

/-- `re.sub(r"\s+", " ", text)`. -/
def subSpaces (l : List Char) : List Char := subSpacesGo false l

/-- Python `str.strip()` on the whitespace class above. -/
def stripEnds (l : List Char) : List Char :=
  ((l.dropWhile isPySpace).reverse.dropWhile isPySpace).reverse

/-- The normalisation `_clean_text` applies before its length test:
leader-run collapse, whitespace collapse, strip. -/
def normalizeText (l : List Char) : List Char := stripEnds (subSpaces (subLeaders l))

/-- `DeterministicPDFParser._clean_text` (on a present string; the `None`
argument case is outside the modelled call sites, which always pass a
string). -/
def clean_text (text : List Char) : Option (List Char) :=
  if text.isEmpty then none
  else
    let t := normalizeText text
    if t.length < 3 then none
    else some t

/-! ## Blocks, per-page assembly and sorting -/

/-- The `type` tag of an emitted block dict. -/
inductive BlockType where
  | text
  | table_placeholder
  | visual_context_placeholder
deriving DecidableEq, Repr

/-- One block dict as built during page processing: `type`, `content`,
optional `image_id`, and the transient `top` key (`none` models an absent
key, as after `element.pop("top", None)`). -/
structure Element where
  btype : BlockType
  content : String
  image_id : Option String
  top : Option ℚ
deriving DecidableEq, Repr

/-- The sort key `lambda x: x.get("top", 0)`. -/
def topKey (e : Element) : ℚ := e.top.getD 0

/-- Python `list.sort(key=...)`: a stable sort by the key. -/
def pySortByTop (l : List Element) : List Element :=
  l.mergeSort (fun a b => decide (topKey a ≤ topKey b))

/-- `element.pop("top", None)`. -/
def stripTop (e : Element) : Element := { e with top := none }

/-- The block-compositor step of `parse`: stable sort by `top`, then remove
the transient key from every block. -/
def composePage (l : List Element) : List Element := (pySortByTop l).map stripTop

/-- One entry of a page's `find_tables()` result, together with the bytes
`page.get_pixmap(matrix=3x, clip=...).tobytes("png")` would produce for its
bounding box and the outcome of the PIL decode/save attempt for those bytes
(both external to the modelled code). -/
structure TableCand where
  obj : TableObj
  render : List Nat
  save_ok : Bool

/-- `DeterministicPDFParser._process_tables_as_images`. -/
def processTables (hash : List Nat → Nat) (s : ImgState) (page_idx : Nat) :
    List TableCand → ImgState × List Element × List Rect
  | [] => (s, [], [])
  | c :: cs =>
    if is_valid_table c.obj then
      let r := saveImage hash s c.render (page_idx + 1) c.save_ok
      let rest := processTables hash r.1 page_idx cs
      match r.2 with
      | some image_id =>
        (rest.1,
         { btype := BlockType.table_placeholder,
           content := "[Table Placeholder: Table detected. See image " ++ image_id ++ "]",
           image_id := some image_id,
           top := some c.obj.bbox.y0 } :: rest.2.1,
         c.obj.bbox :: rest.2.2)
      | none => rest
    else processTables hash s page_idx cs

/-- One raw block of `page.get_text("dict")["blocks"]`: its `type`, `bbox`,
and the span texts in native order (lines flattened, as the source's
generator expression does). -/
structure TextBlock where
  btype : Nat
  bbox : Rect
  spans : List String

/-- `" ".join(span text for line in lines for span in spans)`. -/
def joinSpans (spans : List String) : String := String.intercalate " " spans

/-- Everything `parse` reads from one page of the two open documents,
with externally produced render bytes and save outcomes included. -/
structure PageData where
  page_width : ℚ
  page_height : ℚ
  tables : List TableCand
  drawings : List (Option Rect)
  image_rects : List (List Rect)
  page_render : List Nat
  page_render_ok : Bool
  text_blocks : List TextBlock

/-- The resulting page dict `{page_number, blocks}`. -/
structure Page where
  page_number : Nat
  blocks : List Element
deriving Repr

/-- The unsorted `combined_elements` list built for one page, in emission
order: table placeholders, then the whole-page visual placeholder (if any),
then surviving text blocks. -/
def pageElements (table_blocks visual_blocks text_elements : List Element) : List Element :=
  table_blocks ++ visual_blocks ++ text_elements

/-- The text elements a page contributes (step 3 of the per-page loop). -/
def textElements (table_bboxes : List Rect) (blocks : List TextBlock) : List Element :=
  blocks.filterMap (fun b =>
    if b.btype == 0 then
      if table_bboxes.any (fun table => table.intersects b.bbox) then none
      else
        match clean_text (joinSpans b.spans).toList with
        | some content =>
          some { btype := BlockType.text, content := String.mk content,
                 image_id := none, top := some b.bbox.y0 }
        | none => none
    else none)

/-- The whole-page visual placeholder step (step 2 of the per-page loop). -/
def visualElements (hash : List Nat → Nat) (s : ImgState) (page_idx : Nat) (pd : PageData)
    (table_bboxes : List Rect) : ImgState × List Element :=
  if has_complex_visuals pd.page_width pd.page_height pd.drawings pd.image_rects table_bboxes then
    let r := saveImage hash s pd.page_render (page_idx + 1) pd.page_render_ok
    match r.2 with
    | some full_page_img_id =>
      (r.1,
       [{ btype := BlockType.visual_context_placeholder,
          content := "[Visual Context: Diagram detected. See full page image "
            ++ full_page_img_id ++ "]",
          image_id := some full_page_img_id,
          top := some 0 }])
    | none => (r.1, [])
  else (s, [])

/-- The body of `parse`'s per-page loop. -/
def processPage (hash : List Nat → Nat) (s : ImgState) (page_idx : Nat) (pd : PageData) :
    ImgState × Page :=
  let tr := processTables hash s page_idx pd.tables
  let vr := visualElements hash tr.1 page_idx pd tr.2.2
  let combined := pageElements tr.2.1 vr.2 (textElements tr.2.2 pd.text_blocks)
  (vr.1, { page_number := page_idx + 1, blocks := composePage combined })

/-- Exception payloads are modelled as strings. -/
abbrev Err := String

/-- The page loop of `parse`: the first page whose underlying structures
fail to iterate aborts the whole loop with that error. -/
def processPages (hash : List Nat → Nat) (s : ImgState) (idx : Nat) :
    List (Except Err PageData) → Except Err (ImgState × List Page)
  | [] => Except.ok (s, [])
  | Except.error e :: _ => Except.error e
  | Except.ok pd :: rest =>
    let r := processPage hash s idx pd
    match processPages hash r.1 (idx + 1) rest with
    | Except.error e => Except.error e
    | Except.ok sp => Except.ok (sp.1, r.2 :: sp.2)

/-- The returned parse result dict. -/
structure ParseResult where
  document_path : String
  pages : List Page
  images : List (String × ImageMeta)
  markdown_path : Option String
  num_pages : Nat
  parserTag : String

/-- `DeterministicPDFParser.parse`.  `openRes` is the outcome of opening
the source document (`fitz.open`/`pdfplumber.open`) — on failure the
caught exception is re-raised, so the whole run is an `Except`;
`md_write_ok` is the outcome of writing the markdown file, which on
failure leaves `md_path = None` but still returns the structured result. -/
def parseRun (hash : List Nat → Nat) (document_path : String)
    (openRes : Except Err (List (Except Err PageData))) (md_path : String)
    (md_write_ok : Bool) : Except Err ParseResult :=
  match openRes with
  | Except.error e => Except.error e
  | Except.ok pageList =>
    match processPages hash initState 0 pageList with
    | Except.error e => Except.error e
    | Except.ok sp =>
      Except.ok
        { document_path := document_path,
          pages := sp.2,
          images := sp.1.images,
          markdown_path := if md_write_ok then some md_path else none,
          num_pages := sp.2.length,
          parserTag := "deterministic" }

/-- A concrete injective-on-small-inputs stand-in for the abstracted md5
hash, used only to instantiate witnesses and counterexamples. -/
def hashSum (b : List Nat) : Nat := b.sum

/-! ## Theorems for the claims -/

/-- Claim C4: a table candidate is accepted iff its bounding-box width is at
least 50 units, its height at least 20 units, its extracted grid is non-empty,
and the grid has at least 2 rows or at least 2 columns; in particular a 49×30
region is rejected, a 50×20 region with a 1×1 grid is rejected, and a 50×20
region with a 2×1 grid is accepted. -/
theorem C4_table_acceptance :
    (∀ t : TableObj, is_valid_table t = true ↔
      (50 ≤ t.bbox.x1 - t.bbox.x0 ∧ 20 ≤ t.bbox.y1 - t.bbox.y0 ∧ t.extract ≠ [] ∧
        (2 ≤ t.extract.length ∨ 2 ≤ t.extract.headI.length))) ∧
    is_valid_table ⟨⟨0, 0, 49, 30⟩, [[some "x"], [some "y"]]⟩ = false ∧
    is_valid_table ⟨⟨0, 0, 50, 20⟩, [[some "x"]]⟩ = false ∧
    is_valid_table ⟨⟨0, 0, 50, 20⟩, [[some "x"], [some "y"]]⟩ = true := by
  refine ⟨fun t => ?_, by norm_num [is_valid_table], by norm_num [is_valid_table],
    by norm_num [is_valid_table]⟩
  simp only [is_valid_table]
  split_ifs with h1 h2 hrow hc hc2
  · simp only [Bool.false_eq_true, false_iff]
    rintro ⟨hw, hh, -, -⟩
    rcases h1 with h | h
    · exact absurd hw (not_le.mpr h)
    · exact absurd hh (not_le.mpr h)
  · simp only [Bool.false_eq_true, false_iff]
    rintro ⟨-, -, hne, -⟩
    exact hne (List.isEmpty_iff.mp h2)
  · simp only [Bool.false_eq_true, false_iff]
    rintro ⟨-, -, hne, hrc⟩
    omega
  · simp only [true_iff]
    push_neg at h1
    have hne : t.extract ≠ [] := fun h => h2 (List.isEmpty_iff.mpr h)
    refine ⟨h1.1, h1.2, hne, ?_⟩
    omega
  · exact absurd (List.isEmpty_iff.mpr (List.length_eq_zero.mp (Nat.eq_zero_of_not_pos hrow))) h2
  · exact absurd (List.isEmpty_iff.mpr (List.length_eq_zero.mp (Nat.eq_zero_of_not_pos hrow))) h2

/-- Claim C5: for candidate boxes outside the top-15% and bottom-15% page
bands, the Significance Filter accepts iff both dimensions are at least 30
units, neither aspect ratio exceeds 10, and it is not the case that the box
covers more than 80% of page width and more than 50% of page height; in
particular (page 1000×1000, mid-page) a 30×300 box is accepted, a 30×301 box
is rejected, and a 20×20 box is rejected. -/
theorem C5_significance :
    (∀ (rect : Rect) (page_height page_width : ℚ),
      ¬(rect.y1 < page_height * (15 / 100)) →
      ¬(rect.y0 > page_height * (85 / 100)) →
      (is_significant_visual rect page_height page_width = true ↔
        (30 ≤ rect.width ∧ 30 ≤ rect.height ∧
         rect.width / rect.height ≤ 10 ∧ rect.height / rect.width ≤ 10 ∧
         ¬(rect.width > page_width * (8 / 10) ∧ rect.height > page_height * (5 / 10))))) ∧
    is_significant_visual ⟨0, 350, 30, 650⟩ 1000 1000 = true ∧
    is_significant_visual ⟨0, 350, 30, 651⟩ 1000 1000 = false ∧
    is_significant_visual ⟨0, 400, 20, 420⟩ 1000 1000 = false := by
  refine ⟨fun rect page_height page_width hb1 hb2 => ?_,
    by norm_num [is_significant_visual, Rect.width, Rect.height],
    by norm_num [is_significant_visual, Rect.width, Rect.height],
    by norm_num [is_significant_visual, Rect.width, Rect.height]⟩
  simp only [is_significant_visual]
  rw [if_neg hb1, if_neg hb2]
  split_ifs with h3 h4 h5 h6
  · simp only [Bool.false_eq_true, false_iff]
    rintro ⟨hw, hh, -, -, -⟩
    rcases h3 with h | h
    · exact absurd hw (not_le.mpr h)
    · exact absurd hh (not_le.mpr h)
  · simp only [Bool.false_eq_true, false_iff]
    rintro ⟨-, -, hr1, -, -⟩
    exact absurd hr1 (not_le.mpr h4.2)
  · simp only [Bool.false_eq_true, false_iff]
    rintro ⟨-, -, -, hr2, -⟩
    exact absurd hr2 (not_le.mpr h5.2)
  · simp only [Bool.false_eq_true, false_iff]
    rintro ⟨-, -, -, -, hnf⟩
    exact hnf h6
  · simp only [true_iff]
    push_neg at h3
    have hw : 30 ≤ rect.width := h3.1
    have hh : 30 ≤ rect.height := h3.2
    have hwpos : rect.width > 0 := by linarith
    have hhpos : rect.height > 0 := by linarith
    refine ⟨hw, hh, ?_, ?_, h6⟩
    · by_contra hr
      exact h4 ⟨hhpos, not_le.mp hr⟩
    · by_contra hr
      exact h5 ⟨hwpos, not_le.mp hr⟩

/-- Witness for C5: the band hypotheses hold and the acceptance criterion is
applied at the concrete 30×300 box on a 1000×1000 page. -/
theorem C5_significance_witness :
    is_significant_visual ⟨0, 350, 30, 650⟩ 1000 1000 = true :=
  (C5_significance.1 ⟨0, 350, 30, 650⟩ 1000 1000 (by norm_num) (by norm_num)).mpr
    (by norm_num [Rect.width, Rect.height])

/-- Counterexample to claim C2 as stated: on a 1000×1000 page with no tables
and no drawings, a single embedded raster image placed at rect
(0, 400)–(40, 440) passes the Significance Filter (both dimensions 40 ≥ 30,
square, mid-page, not full-bleed) and intersects no table, so the claim says
the page has complex visuals; the code additionally requires the image rect
to satisfy `width > 50 and height > 50`, so it judges the page NOT complex. -/
theorem C2_counterexample :
    has_complex_visuals 1000 1000 [] [[⟨0, 400, 40, 440⟩]] [] = false ∧
    has_complex_visuals_claim 1000 1000 [] [[⟨0, 400, 40, 440⟩]] [] = true := by
  constructor
  · norm_num [has_complex_visuals, is_significant_visual, Rect.width, Rect.height,
      List.countP, List.countP.go]
  · norm_num [has_complex_visuals_claim, is_significant_visual, Rect.width, Rect.height,
      List.any]

/-- Claim C2 amended: a page is judged to contain complex visuals iff at
least one embedded raster image is strictly larger than 50×50 units, passes
the Significance Filter and does not intersect any accepted table region, or
more than 10 vector drawing primitives pass the Significance Filter after
excluding those that intersect an accepted table region. -/
theorem C2_complex_visuals_amended :
    ∀ (page_width page_height : ℚ) (drawings : List (Option Rect))
      (images : List (List Rect)) (table_bboxes : List Rect),
      has_complex_visuals page_width page_height drawings images table_bboxes =
        has_complex_visuals_amended page_width page_height drawings images table_bboxes := by
  intro pw ph ds imgs tbs
  unfold has_complex_visuals has_complex_visuals_amended
  have himg : ∀ r ∈ imgs.flatten,
      ((if tbs.any (fun table => table.intersects r) then false
        else if r.width > 50 ∧ r.height > 50 then is_significant_visual r ph pw else false)
        = true
       ↔ (!(tbs.any fun table => table.intersects r) && decide (r.width > 50 ∧ r.height > 50) &&
          is_significant_visual r ph pw) = true) := by
    intro r _
    by_cases hb : (tbs.any fun table => table.intersects r) = true
    · simp [hb]
    · simp only [Bool.not_eq_true] at hb
      by_cases h2 : r.width > 50 ∧ r.height > 50
      · simp [hb, h2]
      · simp [hb, h2]
  rw [List.countP_congr himg]
  have hdr : ∀ d ∈ ds,
      ((match d with
        | none => false
        | some r =>
          if tbs.any (fun table => table.intersects r) then false
          else is_significant_visual r ph pw) = true
       ↔ (match d with
          | none => false
          | some r =>
            !(tbs.any fun table => table.intersects r) &&
              is_significant_visual r ph pw) = true) := by
    intro d _
    cases d with
    | none => exact Iff.rfl
    | some r =>
      by_cases hb : (tbs.any fun table => table.intersects r) = true
      · simp [hb]
      · simp only [Bool.not_eq_true] at hb
        simp [hb]
  rw [List.countP_congr hdr]
  by_cases hc :
      0 < imgs.flatten.countP (fun r =>
        !(tbs.any fun table => table.intersects r) && decide (r.width > 50 ∧ r.height > 50) &&
          is_significant_visual r ph pw)
  · obtain ⟨r, hr, hpr⟩ := List.countP_pos_iff.mp hc
    rw [if_pos hc, List.any_eq_true.mpr ⟨r, hr, hpr⟩, Bool.true_or]
  · rw [if_neg hc,
      List.any_eq_false.mpr (fun r hr => by
        have := List.countP_eq_zero.mp (Nat.eq_zero_of_not_pos hc) r hr
        simpa using this),
      Bool.false_or]
    by_cases hd :
        10 < ds.countP (fun d =>
          match d with
          | none => false
          | some r =>
            !(tbs.any fun table => table.intersects r) && is_significant_visual r ph pw)
    · rw [if_pos hd, decide_eq_true hd]
    · rw [if_neg hd, decide_eq_false hd]

/-! ### Run lemmas for the two regex substitutions and the strip -/

theorem subLeadersGo_append_run (pending run rest : List Char)
    (h : ∀ c ∈ run, isLeader c = true) :
    subLeadersGo pending (run ++ rest) = subLeadersGo (pending ++ run) rest := by
  induction run generalizing pending with
  | nil => simp
  | cons c cs ih =>
    have hc : isLeader c = true := h c (List.mem_cons_self c cs)
    simp only [List.cons_append, subLeadersGo, hc, if_true, List.append_eq]
    rw [ih (pending ++ [c]) (fun x hx => h x (List.mem_cons_of_mem c hx))]
    simp

theorem subLeaders_cons_of_not_leader :
    ∀ (c : Char) (cs : List Char), isLeader c = false →
      subLeaders (c :: cs) = c :: subLeaders cs := by
  intro c cs h
  simp [subLeaders, subLeadersGo, h, flushRun]

theorem subLeaders_collapse_long :
    ∀ (run rest : List Char), (∀ c ∈ run, isLeader c = true) → 3 ≤ run.length →
      (∀ c, rest.head? = some c → isLeader c = false) →
      subLeaders (run ++ rest) = ' ' :: subLeaders rest := by
  intro run rest hall hlen hrest
  rw [subLeaders, subLeadersGo_append_run [] run rest hall, List.nil_append]
  cases rest with
  | nil => simp [subLeadersGo, flushRun, hlen, subLeaders]
  | cons c cs =>
    have hc : isLeader c = false := hrest c rfl
    simp [subLeadersGo, flushRun, hc, hlen, subLeaders]

theorem subLeaders_keep_short :
    ∀ (run rest : List Char), (∀ c ∈ run, isLeader c = true) → run.length < 3 →
      (∀ c, rest.head? = some c → isLeader c = false) →
      subLeaders (run ++ rest) = run ++ subLeaders rest := by
  intro run rest hall hlen hrest
  rw [subLeaders, subLeadersGo_append_run [] run rest hall, List.nil_append]
  have hfr : flushRun run = run := by rw [flushRun, if_neg (by omega)]
  have hf0 : flushRun ([] : List Char) = [] := rfl
  cases rest with
  | nil =>
    simp only [subLeadersGo, hfr]
    simp [subLeaders, subLeadersGo, hf0]
  | cons c cs =>
    have hc : isLeader c = false := hrest c rfl
    simp only [subLeadersGo]
    simp [hc, hfr, hf0, subLeaders, subLeadersGo]

theorem subSpacesGo_append_run (p : Bool) (run rest : List Char)
    (h : ∀ c ∈ run, isPySpace c = true) (hne : run ≠ []) :
    subSpacesGo p (run ++ rest) = subSpacesGo true rest := by
  induction run generalizing p with
  | nil => exact absurd rfl hne
  | cons c cs ih =>
    have hc : isPySpace c = true := h c (List.mem_cons_self c cs)
    simp only [List.cons_append, subSpacesGo, hc, if_true]
    cases cs with
    | nil => simp
    | cons c2 cs2 =>
      exact ih true (fun x hx => h x (List.mem_cons_of_mem c hx)) (by simp)

theorem subSpaces_cons_of_not_space :
    ∀ (c : Char) (cs : List Char), isPySpace c = false →
      subSpaces (c :: cs) = c :: subSpaces cs := by
  intro c cs h
  simp [subSpaces, subSpacesGo, h]

theorem subSpaces_collapse_run :
    ∀ (run rest : List Char), (∀ c ∈ run, isPySpace c = true) → run ≠ [] →
      (∀ c, rest.head? = some c → isPySpace c = false) →
      subSpaces (run ++ rest) = ' ' :: subSpaces rest := by
  intro run rest hall hne hrest
  rw [subSpaces, subSpacesGo_append_run false run rest hall hne]
  cases rest with
  | nil => simp [subSpacesGo, subSpaces]
  | cons c cs =>
    have hc : isPySpace c = false := hrest c rfl
    simp [subSpacesGo, hc, subSpaces]

theorem stripEnds_strip :
    ∀ (pre l post : List Char),
      (∀ c ∈ pre, isPySpace c = true) → (∀ c ∈ post, isPySpace c = true) →
      (∀ c, l.head? = some c → isPySpace c = false) →
      (∀ c, l.getLast? = some c → isPySpace c = false) →
      stripEnds (pre ++ l ++ post) = l := by
  intro pre l post hpre hpost hhead hlast
  unfold stripEnds
  rw [List.append_assoc, List.dropWhile_append_of_pos hpre]
  cases l with
  | nil =>
    simp only [List.nil_append]
    rw [List.dropWhile_eq_nil_iff.mpr hpost]
    simp
  | cons c cs =>
    have hc : isPySpace c = false := hhead c rfl
    rw [List.cons_append, List.dropWhile_cons_of_neg (by simp [hc])]
    rw [show (c :: (cs ++ post) : List Char) = (c :: cs) ++ post from by simp,
      List.reverse_append,
      List.dropWhile_append_of_pos (fun a ha => hpost a (List.mem_reverse.mp ha))]
    have hrev : ((c :: cs).reverse).dropWhile isPySpace = (c :: cs).reverse := by
      cases hx : (c :: cs).reverse with
      | nil => exact absurd (congrArg List.length hx) (by simp)
      | cons d ds =>
        have hd : (c :: cs).getLast? = some d := by
          rw [← List.head?_reverse, hx]; rfl
        rw [List.dropWhile_cons_of_neg (by simp [hlast d hd])]
    rw [hrev, List.reverse_reverse]

/-- Claim C7: text cleaning returns `None` exactly when the input is empty or
the normalised content has fewer than 3 characters, and otherwise returns the
normalised content; normalisation collapses every run of 3 or more
dot/underscore/dash characters to a single space (shorter runs are kept),
collapses every whitespace run to a single space, and strips leading and
trailing whitespace. -/
theorem C7_clean_text :
    (∀ s : List Char, clean_text s = none ↔ (s = [] ∨ (normalizeText s).length < 3)) ∧
    (∀ s : List Char, ¬(s = [] ∨ (normalizeText s).length < 3) →
      clean_text s = some (normalizeText s)) ∧
    (∀ (c : Char) (cs : List Char), isLeader c = false →
      subLeaders (c :: cs) = c :: subLeaders cs) ∧
    (∀ run rest : List Char, (∀ c ∈ run, isLeader c = true) → 3 ≤ run.length →
      (∀ c, rest.head? = some c → isLeader c = false) →
      subLeaders (run ++ rest) = ' ' :: subLeaders rest) ∧
    (∀ run rest : List Char, (∀ c ∈ run, isLeader c = true) → run.length < 3 →
      (∀ c, rest.head? = some c → isLeader c = false) →
      subLeaders (run ++ rest) = run ++ subLeaders rest) ∧
    (∀ (c : Char) (cs : List Char), isPySpace c = false →
      subSpaces (c :: cs) = c :: subSpaces cs) ∧
    (∀ run rest : List Char, (∀ c ∈ run, isPySpace c = true) → run ≠ [] →
      (∀ c, rest.head? = some c → isPySpace c = false) →
      subSpaces (run ++ rest) = ' ' :: subSpaces rest) ∧
    (∀ pre l post : List Char,
      (∀ c ∈ pre, isPySpace c = true) → (∀ c ∈ post, isPySpace c = true) →
      (∀ c, l.head? = some c → isPySpace c = false) →
      (∀ c, l.getLast? = some c → isPySpace c = false) →
      stripEnds (pre ++ l ++ post) = l) := by
  refine ⟨?_, ?_, subLeaders_cons_of_not_leader, subLeaders_collapse_long,
    subLeaders_keep_short, subSpaces_cons_of_not_space, subSpaces_collapse_run,
    stripEnds_strip⟩
  · intro s
    unfold clean_text normalizeText
    by_cases h0 : s.isEmpty
    · simp [h0, List.isEmpty_iff.mp h0]
    · rw [if_neg h0]
      have hne : ¬(s = []) := fun h => h0 (List.isEmpty_iff.mpr h)
      by_cases hlen : (stripEnds (subSpaces (subLeaders s))).length < 3
      · simp [hlen, hne]
      · simp [hlen, hne]
  · intro s h
    push_neg at h
    unfold clean_text normalizeText
    rw [if_neg (fun he => h.1 (List.isEmpty_iff.mp he)),
      if_neg (by unfold normalizeText at h; omega)]

/-- Witness for C7: the theorem applied to the concrete input "a...b" —
not empty, normalised content "a b" of length 3 — yields that cleaned
content. -/
theorem C7_clean_text_witness : clean_text "a...b".toList = some "a b".toList := by
  have h := C7_clean_text.2.1 "a...b".toList (by decide)
  rw [h]; decide

/-! ### Image-store lemmas -/

/-- Exhaustive description of one `_save_image` call: dedup hit (state
unchanged, existing identifier returned), successful save (counter bumped,
both dicts extended, file written), or failed save (only the counter
bumped, `None` returned). -/
theorem saveImage_spec (hash : List Nat → Nat) (s : ImgState) (b : List Nat)
    (p : Nat) (ok : Bool) :
    (∃ id, s.unique_image_hashes.lookup (hash b) = some id ∧
      saveImage hash s b p ok = (s, some id)) ∨
    (s.unique_image_hashes.lookup (hash b) = none ∧
      ((ok = true ∧ saveImage hash s b p ok =
        ({ image_counter := s.image_counter + 1,
           images := s.images ++ [(mkImageId (s.image_counter + 1),
             ⟨"images/" ++ mkImageId (s.image_counter + 1) ++ ".png", p⟩)],
           unique_image_hashes := s.unique_image_hashes ++
             [(hash b, mkImageId (s.image_counter + 1))],
           files := s.files ++
             [("images/" ++ mkImageId (s.image_counter + 1) ++ ".png", b)] },
         some (mkImageId (s.image_counter + 1)))) ∨
       (ok = false ∧ saveImage hash s b p ok =
        ({ s with image_counter := s.image_counter + 1 }, none)))) := by
  cases hl : s.unique_image_hashes.lookup (hash b) with
  | some id => exact Or.inl ⟨id, rfl, by simp [saveImage, hl]⟩
  | none =>
    cases ok with
    | true => exact Or.inr ⟨rfl, Or.inl ⟨rfl, by simp [saveImage, hl]⟩⟩
    | false => exact Or.inr ⟨rfl, Or.inr ⟨rfl, by simp [saveImage, hl]⟩⟩

/-- A recorded hash→identifier binding survives any later `_save_image`
call (the dict only ever gains fresh keys, appended behind existing ones). -/
theorem saveImage_lookup_mono (hash : List Nat → Nat) (s : ImgState) (b : List Nat)
    (p : Nat) (ok : Bool) (h : Nat) (id : String)
    (hl : s.unique_image_hashes.lookup h = some id) :
    (saveImage hash s b p ok).1.unique_image_hashes.lookup h = some id := by
  rcases saveImage_spec hash s b p ok with ⟨id2, -, heq⟩ | ⟨-, ⟨-, heq⟩ | ⟨-, heq⟩⟩ <;>
    rw [heq]
  · exact hl
  · simp only [List.lookup_append, hl, Option.or_some]
  · exact hl

/-- A recorded hash→identifier binding survives a whole sequence of
`_save_image` calls. -/
theorem runSave_lookup_mono (hash : List Nat → Nat) :
    ∀ (calls : List SaveCall) (s : ImgState) (h : Nat) (id : String),
      s.unique_image_hashes.lookup h = some id →
      (runSave hash s calls).1.unique_image_hashes.lookup h = some id := by
  intro calls
  induction calls with
  | nil => intro s h id hl; exact hl
  | cons c cs ih =>
    intro s h id hl
    exact ih _ h id (saveImage_lookup_mono hash s c.bytes c.page c.ok h id hl)

/-- After a successful `_save_image` call the returned identifier is exactly
what the hash dict then maps the content hash to. -/
theorem saveImage_ok_out (hash : List Nat → Nat) (s : ImgState) (b : List Nat) (p : Nat) :
    (saveImage hash s b p true).1.unique_image_hashes.lookup (hash b) =
      (saveImage hash s b p true).2 ∧
    ((saveImage hash s b p true).2).isSome = true := by
  rcases saveImage_spec hash s b p true with ⟨id, hl, heq⟩ | ⟨hl, ⟨-, heq⟩ | ⟨hfalse, -⟩⟩
  · rw [heq]; exact ⟨hl, rfl⟩
  · rw [heq]
    constructor
    · simp only [List.lookup_append, hl, Option.none_or, List.lookup_cons_self]
    · rfl
  · exact absurd hfalse (by simp)

/-- Within one all-saves-succeed run, the identifier returned at position `i`
is the final hash-dict binding of that call's content hash (and is present). -/
theorem runSave_out_lookup (hash : List Nat → Nat) :
    ∀ (calls : List SaveCall) (s : ImgState),
      (∀ c ∈ calls, c.ok = true) → ∀ i, i < calls.length →
      ((runSave hash s calls).2.getD i none =
        (runSave hash s calls).1.unique_image_hashes.lookup
          (hash ((calls.getD i default).bytes)) ∧
       ((runSave hash s calls).2.getD i none).isSome = true) := by
  intro calls
  induction calls with
  | nil => intro s _ i hi; exact absurd hi (by simp)
  | cons c cs ih =>
    intro s hok i hi
    have hcok : c.ok = true := hok c (List.mem_cons_self c cs)
    cases i with
    | zero =>
      obtain ⟨hlk, hsome⟩ := saveImage_ok_out hash s c.bytes c.page
      obtain ⟨id, hid⟩ := Option.isSome_iff_exists.mp hsome
      have hfin := runSave_lookup_mono hash cs
        (saveImage hash s c.bytes c.page true).1 (hash c.bytes) id (hlk.trans hid)
      simp only [runSave, List.getD_cons_zero]
      rw [hcok, hfin, hid]
      exact ⟨rfl, rfl⟩
    | succ j =>
      have hj : j < cs.length := by simpa using hi
      have := ih (saveImage hash s c.bytes c.page c.ok).1
        (fun x hx => hok x (List.mem_cons_of_mem c hx)) j hj
      simpa [runSave, List.getD_cons_succ] using this

/-- Main dedup invariant: starting from a state whose hash dict and written
files exactly reflect a set `seen` of already-interned contents, an
all-saves-succeed, collision-free run establishes the same correspondence
for every content it involves: the content hash is known to the dict and
exactly one file with that content exists. -/
theorem runSave_files_inv (hash : List Nat → Nat) :
    ∀ (calls : List SaveCall) (s : ImgState) (seen : List (List Nat)),
      (∀ c ∈ calls, c.ok = true) →
      (∀ a b : List Nat, (a ∈ seen ∨ ∃ c ∈ calls, c.bytes = a) →
        (b ∈ seen ∨ ∃ c ∈ calls, c.bytes = b) → hash a = hash b → a = b) →
      (∀ b : List Nat, (b ∈ seen ∨ ∃ c ∈ calls, c.bytes = b) →
        (((s.unique_image_hashes.lookup (hash b)).isSome = true) ↔ b ∈ seen) ∧
        s.files.countP (fun f => f.2 == b) = (if b ∈ seen then 1 else 0)) →
      ∀ b : List Nat, (b ∈ seen ∨ ∃ c ∈ calls, c.bytes = b) →
        ((runSave hash s calls).1.unique_image_hashes.lookup (hash b)).isSome = true ∧
        (runSave hash s calls).1.files.countP (fun f => f.2 == b) = 1 := by
  intro calls
  induction calls with
  | nil =>
    intro s seen hok hinj hinv b hb
    have hbseen : b ∈ seen := by
      rcases hb with h | ⟨c, hc, -⟩
      · exact h
      · exact absurd hc (List.not_mem_nil c)
    obtain ⟨hiff, hcount⟩ := hinv b (Or.inl hbseen)
    simp only [runSave]
    exact ⟨hiff.mpr hbseen, by rw [hcount, if_pos hbseen]⟩
  | cons c cs ih =>
    intro s seen hok hinj hinv b hb
    have hcok : c.ok = true := hok c (List.mem_cons_self c cs)
    have hcdom : c.bytes ∈ seen ∨ ∃ c2 ∈ c :: cs, c2.bytes = c.bytes :=
      Or.inr ⟨c, List.mem_cons_self c cs, rfl⟩
    have hok2 : ∀ c2 ∈ cs, c2.ok = true := fun x hx => hok x (List.mem_cons_of_mem c hx)
    have hdom : ∀ a : List Nat,
        (a ∈ seen ++ [c.bytes] ∨ ∃ c2 ∈ cs, c2.bytes = a) →
        (a ∈ seen ∨ ∃ c2 ∈ c :: cs, c2.bytes = a) := by
      intro a ha
      rcases ha with ha | ⟨c2, hc2, he⟩
      · rcases List.mem_append.mp ha with h | h
        · exact Or.inl h
        · exact Or.inr ⟨c, List.mem_cons_self c cs, (List.mem_singleton.mp h).symm⟩
      · exact Or.inr ⟨c2, List.mem_cons_of_mem c hc2, he⟩
    have hdomr : ∀ a : List Nat,
        (a ∈ seen ∨ ∃ c2 ∈ c :: cs, c2.bytes = a) →
        (a ∈ seen ++ [c.bytes] ∨ ∃ c2 ∈ cs, c2.bytes = a) := by
      intro a ha
      rcases ha with ha | ⟨c2, hc2, he⟩
      · exact Or.inl (List.mem_append.mpr (Or.inl ha))
      · rcases List.mem_cons.mp hc2 with h | h
        · exact Or.inl (List.mem_append.mpr (Or.inr (by simp [h ▸ he.symm])))
        · exact Or.inr ⟨c2, h, he⟩
    have hinj2 : ∀ a b : List Nat,
        (a ∈ seen ++ [c.bytes] ∨ ∃ c2 ∈ cs, c2.bytes = a) →
        (b ∈ seen ++ [c.bytes] ∨ ∃ c2 ∈ cs, c2.bytes = b) → hash a = hash b → a = b :=
      fun a b ha hb2 => hinj a b (hdom a ha) (hdom b hb2)
    rcases saveImage_spec hash s c.bytes c.page c.ok with
      ⟨id, hl, heq⟩ | ⟨hl, ⟨-, heq⟩ | ⟨hfalse, -⟩⟩
    · -- dedup hit: the content was already seen
      have hcseen : c.bytes ∈ seen :=
        (hinv c.bytes hcdom).1.mp (by rw [hl]; rfl)
      have hseen2 : ∀ a : List Nat, a ∈ seen ++ [c.bytes] ↔ a ∈ seen := by
        intro a
        constructor
        · intro ha
          rcases List.mem_append.mp ha with h | h
          · exact h
          · exact (List.mem_singleton.mp h) ▸ hcseen
        · exact fun ha => List.mem_append.mpr (Or.inl ha)
      have hinv2 : ∀ b2 : List Nat, (b2 ∈ seen ++ [c.bytes] ∨ ∃ c2 ∈ cs, c2.bytes = b2) →
          (((s.unique_image_hashes.lookup (hash b2)).isSome = true) ↔ b2 ∈ seen ++ [c.bytes]) ∧
          s.files.countP (fun f => f.2 == b2) = (if b2 ∈ seen ++ [c.bytes] then 1 else 0) := by
        intro b2 hb2
        obtain ⟨hiff, hcount⟩ := hinv b2 (hdom b2 hb2)
        refine ⟨hiff.trans (hseen2 b2).symm, ?_⟩
        rw [hcount]
        by_cases hm : b2 ∈ seen
        · rw [if_pos hm, if_pos ((hseen2 b2).mpr hm)]
        · rw [if_neg hm, if_neg (fun hx => hm ((hseen2 b2).mp hx))]
      have := ih s (seen ++ [c.bytes]) hok2 hinj2 hinv2 b (hdomr b hb)
      simpa [runSave, heq] using this
    · -- fresh content, successful save
      have hcnot : c.bytes ∉ seen := fun hmem => by
        have := (hinv c.bytes hcdom).1.mpr hmem
        rw [hl] at this
        simp at this
      have hinv2 : ∀ b2 : List Nat, (b2 ∈ seen ++ [c.bytes] ∨ ∃ c2 ∈ cs, c2.bytes = b2) →
          ((((saveImage hash s c.bytes c.page c.ok).1.unique_image_hashes.lookup
              (hash b2)).isSome = true) ↔ b2 ∈ seen ++ [c.bytes]) ∧
          (saveImage hash s c.bytes c.page c.ok).1.files.countP (fun f => f.2 == b2) =
            (if b2 ∈ seen ++ [c.bytes] then 1 else 0) := by
        intro b2 hb2
        obtain ⟨hiff, hcount⟩ := hinv b2 (hdom b2 hb2)
        rw [heq]
        by_cases hbc : b2 = c.bytes
        · subst hbc
          constructor
          · simp only [List.lookup_append, hl, Option.none_or, List.lookup_cons_self]
            simp [List.mem_append]
          · rw [List.countP_append, hcount, if_neg hcnot, if_pos (by simp [List.mem_append])]
            simp [List.countP_cons]
        · have hhash : hash b2 ≠ hash c.bytes :=
            fun he => hbc (hinj b2 c.bytes (hdom b2 hb2) hcdom he)
          have hmem2 : b2 ∈ seen ++ [c.bytes] ↔ b2 ∈ seen := by
            simp [List.mem_append, hbc]
          constructor
          · have hbeq : (hash b2 == hash c.bytes) = false := by simpa using hhash
            rw [List.lookup_append]
            simp only [List.lookup, hbeq, Option.or_none]
            exact hiff.trans hmem2.symm
          · have hbeq2 : ((c.bytes == b2) : Bool) = false := by
              simpa using fun he => hbc he.symm
            rw [List.countP_append, hcount]
            simp only [List.countP_cons, List.countP_nil, hbeq2, Bool.false_eq_true,
              if_false, Nat.zero_add, Nat.add_zero]
            by_cases hm : b2 ∈ seen
            · rw [if_pos hm, if_pos (hmem2.mpr hm)]
            · rw [if_neg hm, if_neg (fun hx => hm (hmem2.mp hx))]
      have := ih (saveImage hash s c.bytes c.page c.ok).1 (seen ++ [c.bytes])
        hok2 hinj2 hinv2 b (hdomr b hb)
      simpa [runSave] using this
    · exact absurd hcok (by rw [hfalse]; simp)

/-- Claim C1: within one parse whose saves all succeed and whose content
hashes do not collide, any two `_save_image` calls with byte-identical
buffers return the same (present) identifier, and the `images/` directory
ends up with exactly one file holding that content — so the file is written
at most once and later duplicate calls perform no write. -/
theorem C1_intern_dedup (hash : List Nat → Nat) (calls : List SaveCall)
    (hok : ∀ c ∈ calls, c.ok = true)
    (hinj : ∀ c1 ∈ calls, ∀ c2 ∈ calls, hash c1.bytes = hash c2.bytes → c1.bytes = c2.bytes) :
    (∀ i j, i < calls.length → j < calls.length →
      (calls.getD i default).bytes = (calls.getD j default).bytes →
      ((runSave hash initState calls).2.getD i none =
        (runSave hash initState calls).2.getD j none ∧
       ((runSave hash initState calls).2.getD i none).isSome = true)) ∧
    (∀ b : List Nat, (∃ c ∈ calls, c.bytes = b) →
      (runSave hash initState calls).1.files.countP (fun f => f.2 == b) = 1) := by
  constructor
  · intro i j hi hj hbytes
    obtain ⟨houti, hsomei⟩ := runSave_out_lookup hash calls initState hok i hi
    obtain ⟨houtj, -⟩ := runSave_out_lookup hash calls initState hok j hj
    refine ⟨?_, hsomei⟩
    rw [houti, houtj, hbytes]
  · intro b hbex
    have hinj2 : ∀ a b2 : List Nat,
        (a ∈ ([] : List (List Nat)) ∨ ∃ c ∈ calls, c.bytes = a) →
        (b2 ∈ ([] : List (List Nat)) ∨ ∃ c ∈ calls, c.bytes = b2) →
        hash a = hash b2 → a = b2 := by
      rintro a b2 (ha | ⟨c1, hc1, he1⟩) (hb2 | ⟨c2, hc2, he2⟩) hh
      · exact absurd ha (List.not_mem_nil a)
      · exact absurd ha (List.not_mem_nil a)
      · exact absurd hb2 (List.not_mem_nil b2)
      · subst he1; subst he2; exact hinj c1 hc1 c2 hc2 hh
    have hinv0 : ∀ b2 : List Nat,
        (b2 ∈ ([] : List (List Nat)) ∨ ∃ c ∈ calls, c.bytes = b2) →
        (((initState.unique_image_hashes.lookup (hash b2)).isSome = true) ↔
          b2 ∈ ([] : List (List Nat))) ∧
        initState.files.countP (fun f => f.2 == b2) =
          (if b2 ∈ ([] : List (List Nat)) then 1 else 0) := by
      intro b2 _
      constructor
      · simp [initState]
      · simp [initState]
    exact (runSave_files_inv hash calls initState [] hok hinj2 hinv0 b (Or.inr hbex)).2

/-- Witness for C1: two calls handing in the identical buffer `[5]` (one
from the table path on page 1, one from the visual path on page 2) return
the same identifier and leave exactly one file with that content. -/
theorem C1_intern_dedup_witness :
    ((runSave hashSum initState
        [⟨[5], 1, ImgKind.table, true⟩, ⟨[5], 2, ImgKind.image, true⟩]).2.getD 0 none =
      (runSave hashSum initState
        [⟨[5], 1, ImgKind.table, true⟩, ⟨[5], 2, ImgKind.image, true⟩]).2.getD 1 none) ∧
    (runSave hashSum initState
      [⟨[5], 1, ImgKind.table, true⟩, ⟨[5], 2, ImgKind.image, true⟩]).1.files.countP
        (fun f => f.2 == [5]) = 1 := by
  have h := C1_intern_dedup hashSum
    [⟨[5], 1, ImgKind.table, true⟩, ⟨[5], 2, ImgKind.image, true⟩]
    (by decide) (by decide)
  exact ⟨(h.1 0 1 (by decide) (by decide) (by decide)).1, h.2 [5] (by decide)⟩

/-- A `_save_image` call never decreases the identifier counter. -/
theorem saveImage_counter_le (hash : List Nat → Nat) (s : ImgState) (b : List Nat)
    (p : Nat) (ok : Bool) :
    s.image_counter ≤ (saveImage hash s b p ok).1.image_counter := by
  rcases saveImage_spec hash s b p ok with ⟨id, -, heq⟩ | ⟨-, ⟨-, heq⟩ | ⟨-, heq⟩⟩ <;>
    rw [heq] <;> dsimp only <;> omega

/-- A run of `_save_image` calls never decreases the identifier counter. -/
theorem runSave_counter_le (hash : List Nat → Nat) :
    ∀ (calls : List SaveCall) (s : ImgState),
      s.image_counter ≤ (runSave hash s calls).1.image_counter := by
  intro calls
  induction calls with
  | nil => intro s; simp [runSave]
  | cons c cs ih =>
    intro s
    have h1 := saveImage_counter_le hash s c.bytes c.page c.ok
    have h2 := ih (saveImage hash s c.bytes c.page c.ok).1
    simp only [runSave]
    omega

/-- Every entry `images` gains during a run was either already present or
carries an identifier numbered strictly above the starting counter. -/
theorem runSave_images_mem (hash : List Nat → Nat) :
    ∀ (calls : List SaveCall) (s : ImgState) (idm : String × ImageMeta),
      idm ∈ (runSave hash s calls).1.images →
      idm ∈ s.images ∨ ∃ k, idm.1 = mkImageId k ∧ s.image_counter + 1 ≤ k := by
  intro calls
  induction calls with
  | nil =>
    intro s idm h
    simp only [runSave] at h
    exact Or.inl h
  | cons c cs ih =>
    intro s idm h
    simp only [runSave] at h
    rcases ih (saveImage hash s c.bytes c.page c.ok).1 idm h with h1 | ⟨k, hk, hle⟩
    · rcases saveImage_spec hash s c.bytes c.page c.ok with
        ⟨id, -, heq⟩ | ⟨-, ⟨-, heq⟩ | ⟨-, heq⟩⟩ <;> rw [heq] at h1
      · exact Or.inl h1
      · rcases List.mem_append.mp h1 with h2 | h2
        · exact Or.inl h2
        · refine Or.inr ⟨s.image_counter + 1, ?_, Nat.le_refl _⟩
          rw [List.mem_singleton.mp h2]
      · exact Or.inl h1
    · refine Or.inr ⟨k, hk, ?_⟩
      have := saveImage_counter_le hash s c.bytes c.page c.ok
      omega

/-- Claim C10: when the decode/save attempt fails, `_save_image` returns
`None` and leaves both dicts and the `images/` directory untouched, but the
counter increment performed before the `try` block survives; a following
call with the same bytes misses the cache again and attempts a fresh save
under the next number, so the failed number is skipped — no entry numbered
at or below it is ever added to `images` afterwards. -/
theorem C10_save_failure (hash : List Nat → Nat) (s : ImgState) (b : List Nat) (p : Nat)
    (hl : s.unique_image_hashes.lookup (hash b) = none) :
    (saveImage hash s b p false).2 = none ∧
    (saveImage hash s b p false).1.unique_image_hashes = s.unique_image_hashes ∧
    (saveImage hash s b p false).1.images = s.images ∧
    (saveImage hash s b p false).1.files = s.files ∧
    (saveImage hash s b p false).1.image_counter = s.image_counter + 1 ∧
    (∀ p2 : Nat,
      (saveImage hash (saveImage hash s b p false).1 b p2 true).2 =
        some (mkImageId (s.image_counter + 2)) ∧
      (saveImage hash (saveImage hash s b p false).1 b p2 true).1.image_counter =
        s.image_counter + 2) ∧
    (∀ (calls : List SaveCall) (idm : String × ImageMeta),
      idm ∈ (runSave hash (saveImage hash s b p false).1 calls).1.images →
      idm ∈ s.images ∨ ∃ k, idm.1 = mkImageId k ∧ s.image_counter + 2 ≤ k) := by
  have heq : saveImage hash s b p false =
      ({ s with image_counter := s.image_counter + 1 }, none) := by
    rcases saveImage_spec hash s b p false with
      ⟨id, hl2, -⟩ | ⟨-, ⟨htrue, -⟩ | ⟨-, heq⟩⟩
    · rw [hl] at hl2; exact absurd hl2 (by simp)
    · exact absurd htrue (by simp)
    · exact heq
  refine ⟨by rw [heq], by rw [heq], by rw [heq], by rw [heq], by rw [heq], ?_, ?_⟩
  · intro p2
    have hl2 : (saveImage hash s b p false).1.unique_image_hashes.lookup (hash b) = none := by
      rw [heq]; exact hl
    rcases saveImage_spec hash (saveImage hash s b p false).1 b p2 true with
      ⟨id, hsome, -⟩ | ⟨-, ⟨-, heq2⟩ | ⟨hfalse, -⟩⟩
    · rw [hl2] at hsome; exact absurd hsome (by simp)
    · rw [heq2, heq]
      exact ⟨rfl, rfl⟩
    · exact absurd hfalse (by simp)
  · intro calls idm hmem
    rcases runSave_images_mem hash calls (saveImage hash s b p false).1 idm hmem with
      h1 | ⟨k, hk, hle⟩
    · rw [heq] at h1
      exact Or.inl h1
    · refine Or.inr ⟨k, hk, ?_⟩
      rw [heq] at hle
      exact hle

/-- Witness for C10: a failing save of buffer `[7]` from the fresh store
returns `None`, bumps the counter to 1, and the retry with the same bytes
allocates `img_002`, skipping `img_001`. -/
theorem C10_save_failure_witness :
    (saveImage hashSum initState [7] 1 false).2 = none ∧
    (saveImage hashSum initState [7] 1 false).1.image_counter = 1 ∧
    (saveImage hashSum (saveImage hashSum initState [7] 1 false).1 [7] 2 true).2 =
      some "img_002" := by
  have h := C10_save_failure hashSum initState [7] 1 rfl
  refine ⟨h.1, h.2.2.2.2.1, ?_⟩
  rw [(h.2.2.2.2.2.1 2).1]
  decide

/-- Counterexample to claim C3 as stated: identifiers do not encode the
kind and are not drawn from separate per-kind sequences.  Interning a
buffer from the table call site yields `img_001`; interning a different
buffer from the whole-page-visual call site also yields the very same
identifier format and value `img_001` (indistinguishable); and in a run
that does one table intern and then one visual intern the visual intern
yields `img_002` — it continues the table call's counter instead of
starting a separate image sequence at its own first element. -/
theorem C3_counterexample :
    (runSave hashSum initState [⟨[0], 1, ImgKind.table, true⟩]).2 = [some "img_001"] ∧
    (runSave hashSum initState [⟨[1], 1, ImgKind.image, true⟩]).2 = [some "img_001"] ∧
    (runSave hashSum initState
      [⟨[0], 1, ImgKind.table, true⟩, ⟨[1], 1, ImgKind.image, true⟩]).2 =
      [some "img_001", some "img_002"] := by
  decide

/-- Claim C3 amended: all identifiers are allocated from one document-wide
sequential counter shared by table saves and whole-page visual saves, with
the uniform format `img_NNN`: the call-site kind plays no role in the run
(re-kinding every call changes nothing), a cache miss always allocates
`mkImageId (counter + 1)` of the single shared counter, and a cache hit
returns the existing identifier without touching the counter. -/
theorem C3_shared_sequence :
    (∀ (hash : List Nat → Nat) (s : ImgState) (calls : List SaveCall)
       (f : SaveCall → ImgKind),
      runSave hash s (calls.map (fun c => { c with kind := f c })) = runSave hash s calls) ∧
    (∀ (hash : List Nat → Nat) (s : ImgState) (b : List Nat) (p : Nat) (ok : Bool),
      s.unique_image_hashes.lookup (hash b) = none →
      (saveImage hash s b p ok).1.image_counter = s.image_counter + 1 ∧
      (saveImage hash s b p ok).2 =
        (if ok then some (mkImageId (s.image_counter + 1)) else none)) ∧
    (∀ (hash : List Nat → Nat) (s : ImgState) (b : List Nat) (p : Nat) (ok : Bool)
       (id : String),
      s.unique_image_hashes.lookup (hash b) = some id →
      saveImage hash s b p ok = (s, some id)) := by
  refine ⟨?_, ?_, ?_⟩
  · intro hash s calls f
    induction calls generalizing s with
    | nil => rfl
    | cons c cs ih =>
      simp only [List.map_cons, runSave]
      rw [ih]
  · intro hash s b p ok hl
    rcases saveImage_spec hash s b p ok with
      ⟨id, hl2, -⟩ | ⟨-, ⟨hok, heq⟩ | ⟨hok, heq⟩⟩
    · rw [hl] at hl2; exact absurd hl2 (by simp)
    · subst hok; rw [heq]; exact ⟨rfl, rfl⟩
    · subst hok; rw [heq]; exact ⟨rfl, rfl⟩
  · intro hash s b p ok id hl
    rcases saveImage_spec hash s b p ok with
      ⟨id2, hl2, heq⟩ | ⟨hl2, -⟩
    · rw [hl] at hl2
      rw [heq, Option.some.inj hl2]
    · rw [hl] at hl2
      exact absurd hl2 (by simp)

/-- Witness for C3's amended theorem: applied at the fresh store with
buffer `[3]` — a cache miss from either call site allocates `img_001` from
the shared counter. -/
theorem C3_shared_sequence_witness :
    (saveImage hashSum initState [3] 1 true).1.image_counter = 1 ∧
    (saveImage hashSum initState [3] 1 true).2 = some (mkImageId 1) := by
  have h := C3_shared_sequence.2.1 hashSum initState [3] 1 true rfl
  exact ⟨h.1, by rw [h.2]; decide⟩

/-! ### Sorting lemmas for the block compositor -/

theorem topKeyLE_trans : ∀ a b c : Element,
    decide (topKey a ≤ topKey b) = true → decide (topKey b ≤ topKey c) = true →
    decide (topKey a ≤ topKey c) = true := by
  intro a b c h1 h2
  exact decide_eq_true (le_trans (of_decide_eq_true h1) (of_decide_eq_true h2))

theorem topKeyLE_total : ∀ a b : Element,
    (decide (topKey a ≤ topKey b) || decide (topKey b ≤ topKey a)) = true := by
  intro a b
  rcases le_total (topKey a) (topKey b) with h | h
  · rw [decide_eq_true h, Bool.true_or]
  · rw [decide_eq_true h, Bool.or_true]

/-- The stable sort keeps the relative order of all elements sharing one
top-coordinate: filtering the sorted list at any key value gives back the
filtered input in input order. -/
theorem pySortByTop_filter_stable (l : List Element) (q : ℚ) :
    (pySortByTop l).filter (fun e => decide (topKey e = q)) =
      l.filter (fun e => decide (topKey e = q)) := by
  have hpw : (l.filter (fun e => decide (topKey e = q))).Pairwise
      (fun a b => decide (topKey a ≤ topKey b) = true) := by
    apply List.pairwise_of_forall_mem_list
    intro a ha b hb
    have haq : topKey a = q := of_decide_eq_true (List.mem_filter.mp ha).2
    have hbq : topKey b = q := of_decide_eq_true (List.mem_filter.mp hb).2
    exact decide_eq_true (le_of_eq (haq.trans hbq.symm))
  have hsub : List.Sublist (l.filter (fun e => decide (topKey e = q))) (pySortByTop l) :=
    List.sublist_mergeSort topKeyLE_trans topKeyLE_total hpw (List.filter_sublist l)
  have hsub2 : List.Sublist (l.filter (fun e => decide (topKey e = q)))
      ((pySortByTop l).filter (fun e => decide (topKey e = q))) := by
    have h := hsub.filter (fun e => decide (topKey e = q))
    rwa [List.filter_filter, (by
      funext a
      rw [Bool.and_self] : (fun a : Element =>
        decide (topKey a = q) && decide (topKey a = q)) =
        fun a : Element => decide (topKey a = q))] at h
  have hperm : List.Perm ((pySortByTop l).filter (fun e => decide (topKey e = q)))
      (l.filter (fun e => decide (topKey e = q))) :=
    (List.mergeSort_perm l _).filter _
  exact (hsub2.eq_of_length hperm.length_eq.symm).symm

/-- Claim C6: each page of the parse result is built by stably sorting the
emitted elements (tables, then the optional whole-page visual, then
surviving text) by ascending top-coordinate and removing the transient
`top` key: the sorted sequence is non-decreasing in original
top-coordinate, co-located blocks keep emission order (tables and visuals
before co-located text), and no public block carries the `top` key. -/
theorem C6_block_ordering :
    (∀ (hash : List Nat → Nat) (s : ImgState) (idx : Nat) (pd : PageData),
      (processPage hash s idx pd).2.blocks =
        composePage (pageElements
          (processTables hash s idx pd.tables).2.1
          (visualElements hash (processTables hash s idx pd.tables).1 idx pd
            (processTables hash s idx pd.tables).2.2).2
          (textElements (processTables hash s idx pd.tables).2.2 pd.text_blocks))) ∧
    (∀ tbs vbs txs : List Element,
      composePage (pageElements tbs vbs txs) =
        (pySortByTop (pageElements tbs vbs txs)).map stripTop) ∧
    (∀ l : List Element, (pySortByTop l).Pairwise (fun a b => topKey a ≤ topKey b)) ∧
    (∀ (tbs vbs txs : List Element) (q : ℚ),
      (pySortByTop (pageElements tbs vbs txs)).filter (fun e => decide (topKey e = q)) =
        (tbs ++ vbs).filter (fun e => decide (topKey e = q)) ++
          txs.filter (fun e => decide (topKey e = q))) ∧
    (∀ (l : List Element) (e : Element), e ∈ composePage l → e.top = none) := by
  refine ⟨fun hash s idx pd => rfl, fun tbs vbs txs => rfl, ?_, ?_, ?_⟩
  · intro l
    have h := @List.sorted_mergeSort Element
        (fun a b : Element => decide (topKey a ≤ topKey b)) topKeyLE_trans topKeyLE_total l
    exact h.imp (fun hab => of_decide_eq_true hab)
  · intro tbs vbs txs q
    rw [pySortByTop_filter_stable]
    simp [pageElements, List.filter_append]
  · intro l e he
    obtain ⟨x, -, hx⟩ := List.mem_map.mp he
    rw [← hx]
    rfl

/-! ### Parse-level error handling -/

/-- Claim C8: an exception while opening the source document, or while
iterating any page's underlying structures, aborts the whole parse: the
underlying error is re-raised to the caller and no structured result (not
even a partial one) is returned. -/
theorem C8_fatal_errors :
    (∀ (hash : List Nat → Nat) (dp md : String) (ok : Bool) (e : Err),
      parseRun hash dp (Except.error e) md ok = Except.error e) ∧
    (∀ (hash : List Nat → Nat) (dp md : String) (ok : Bool) (e : Err)
       (pref : List PageData) (rest : List (Except Err PageData)),
      parseRun hash dp (Except.ok (pref.map Except.ok ++ Except.error e :: rest)) md ok =
        Except.error e) := by
  constructor
  · intro hash dp md ok e
    rfl
  · intro hash dp md ok e pref rest
    have hloop : ∀ (pref2 : List PageData) (s : ImgState) (idx : Nat),
        processPages hash s idx (pref2.map Except.ok ++ Except.error e :: rest) =
          Except.error e := by
      intro pref2
      induction pref2 with
      | nil => intro s idx; rfl
      | cons pd pds ih =>
        intro s idx
        simp only [List.map_cons, List.cons_append, processPages, List.append_eq]
        rw [ih]
    simp only [parseRun]
    rw [hloop pref initState 0]

/-- Claim C9: if writing the markdown file fails after all pages processed
successfully, the structured result is still returned with all pages and
the images map intact and a null `markdown_path`. -/
theorem C9_markdown_failure (hash : List Nat → Nat) (dp md : String)
    (pageList : List (Except Err PageData)) (s : ImgState) (pages : List Page)
    (h : processPages hash initState 0 pageList = Except.ok (s, pages)) :
    parseRun hash dp (Except.ok pageList) md false =
      Except.ok { document_path := dp, pages := pages, images := s.images,
                  markdown_path := none, num_pages := pages.length,
                  parserTag := "deterministic" } := by
  simp only [parseRun]
  rw [h]
  rfl

/-- Witness for C9: the empty document processes to no pages and an empty
store; with the markdown write failing, the structured result is returned
with `markdown_path` null. -/
theorem C9_markdown_failure_witness :
    parseRun hashSum "doc.pdf" (Except.ok []) "doc.md" false =
      Except.ok { document_path := "doc.pdf", pages := [], images := [],
                  markdown_path := none, num_pages := 0,
                  parserTag := "deterministic" } :=
  C9_markdown_failure hashSum "doc.pdf" "doc.md" [] initState [] rfl

end DetParse
